import Mathlib

/-!
Verification of the CHIP-8 emulator core (Rust sources under `src/`).

The definitions below are a shallow embedding of the Rust code:

* `Instruction` embeds `src/instruction.rs` (a 2-byte word split into nibble
  fields via `U4x2::from_byte` / `left` / `right`).
* `draw_sprite` embeds `Renderer::draw_sprite` from `src/renderer.rs`.
* `CpuState` and the `exec_*` functions embed the register file and the
  instruction handlers of `src/cpu.rs`; a Rust `panic!` / failed `assert!` /
  out-of-bounds slice access is modelled as an `Option` returning `none`.
* Machine integers are modelled as `Nat` with explicit `% 2^w` at the points
  where the Rust code performs wrapping width-limited arithmetic.
-/

namespace Chip8

/-! ## Instruction decoder (`src/instruction.rs`) -/

/-- Two bytes of an instruction word, as stored in `Instruction { bytes: [U4x2; 2] }`. -/
structure Instruction where
  b0 : ℕ
  b1 : ℕ
  deriving Repr, DecidableEq

namespace Instruction

/-- Rust `Instruction::new`: build from the two fetched bytes (`U4x2::from_byte` keeps the packed byte). -/
def new (hi lo : ℕ) : Instruction :=
  ⟨hi % 256, lo % 256⟩

/-- Rust `first_nibble`: `bytes[0].left()`, the high nibble of the first byte. -/
def first_nibble (i : Instruction) : ℕ := i.b0 / 16

/-- Rust `second_nibble`: `bytes[0].right()`, the low nibble of the first byte. -/
def second_nibble (i : Instruction) : ℕ := i.b0 % 16

/-- Rust `third_nibble`: `bytes[1].left()`, the high nibble of the second byte. -/
def third_nibble (i : Instruction) : ℕ := i.b1 / 16

/-- Rust `fourth_nibble`: `bytes[1].right()`, the low nibble of the second byte. -/
def fourth_nibble (i : Instruction) : ℕ := i.b1 % 16

/-- Rust `x()`: alias for the second nibble. -/
def x (i : Instruction) : ℕ := i.second_nibble

/-- Rust `y()`: alias for the third nibble. -/
def y (i : Instruction) : ℕ := i.third_nibble

/-- Rust `kk()`: the packed second byte. -/
def kk (i : Instruction) : ℕ := i.b1

/-- Rust `nnn()`: `second_nibble << 8 | bytes[1].packed`. -/
def nnn (i : Instruction) : ℕ := (i.second_nibble <<< 8) ||| i.b1

/-- Decode a full 16-bit word: the CPU fetches two bytes (big-endian order)
and calls `Instruction::new` on them. -/
def decode (w : ℕ) : Instruction :=
  new (w / 256) (w % 256)

end Instruction

/-! ## Renderer (`src/renderer.rs`) -/

/-- The 64×32 monochrome framebuffer `display_content2d`, indexed as `d y x`
(row-major, matching `display_content2d[pixel_y][pixel_x]`). -/
def Display : Type := ℕ → ℕ → Bool

/-- Rust `Renderer::new` and `Renderer::clear_display`: every pixel off. -/
def clear_display : Display := fun _ _ => false

/-- Inner loop of `Renderer::draw_sprite`: one sprite row byte composited at
screen row `py`, the bits visited in the order `(0..SPRITE_WIDTH).rev()`, so
`bits` is instantiated with `[7, 6, ..., 0]`. For each bit index the target
column is `pixel_x = normalized_x + SPRITE_WIDTH - 1 - bit_index`; out-of-screen
pixels are skipped (`continue`); otherwise the pixel is overwritten with the
sprite bit, and `pixel_erased` is latched when the old pixel was on and differs
from the new bit. -/
def draw_row (d : Display) (pixel_erased : Bool) (nx py byte : ℕ) :
    List ℕ → Display × Bool
  | [] => (d, pixel_erased)
  | bi :: rest =>
    let px := nx + 8 - 1 - bi
    if 64 ≤ px ∨ 32 ≤ py then
      draw_row d pixel_erased nx py byte rest
    else
      let bit_set := decide (byte &&& (1 <<< bi) ≠ 0)
      let pixel := d py px
      draw_row (fun yy xx => if yy = py ∧ xx = px then bit_set else d yy xx)
        (pixel_erased || (pixel && (pixel != bit_set))) nx py byte rest

/-- Outer loop of `Renderer::draw_sprite` over `sprite.iter().enumerate()`:
row `sprite_y` of the sprite lands on screen row `normalized_y + sprite_y`. -/
def draw_rows (d : Display) (pixel_erased : Bool) (nx ny : ℕ) :
    ℕ → List ℕ → Display × Bool
  | _, [] => (d, pixel_erased)
  | sy, byte :: rest =>
    let p := draw_row d pixel_erased nx (ny + sy) byte (List.range 8).reverse
    draw_rows p.1 p.2 nx ny (sy + 1) rest

/-- Rust `Renderer::draw_sprite`: normalize the start coordinates modulo the screen
dimensions, composite the sprite rows, return the final framebuffer and the
`pixel_erased` collision flag. -/
def draw_sprite (d : Display) (sprite : List ℕ) (target_x target_y : ℕ) :
    Display × Bool :=
  draw_rows d false (target_x % 64) (target_y % 32) 0 sprite

/-! ## Memory (`src/memory.rs`) -/

/-- Memory size constant `MEMORY_SIZE`. -/
def MEMORY_SIZE : ℕ := 4096

/-- The flat byte store `Memory { data: [u8; 4096] }`, as address → byte. -/
def Mem : Type := ℕ → ℕ

/-- Rust `Memory::read_bytes`: the slice `data[start..start + count]`; a range
reaching past the end of memory panics in Rust, modelled as `none`. -/
def read_bytes (m : Mem) (start count : ℕ) : Option (List ℕ) :=
  if start + count ≤ MEMORY_SIZE then
    some ((List.range count).map (fun j => m (start + j)))
  else none

/-- Rust `Memory::write_bytes`: copy `replacement` into `data[start..]`; a
replacement that would exceed the bounds panics, modelled as `none`. -/
def write_bytes (m : Mem) (start : ℕ) (replacement : List ℕ) : Option Mem :=
  if start + replacement.length ≤ MEMORY_SIZE then
    some (fun a =>
      if start ≤ a ∧ a < start + replacement.length then replacement.getD (a - start) 0
      else m a)
  else none

/-- The 80-byte hexadecimal font table written at address 0x0 by
`Memory::new`. -/
def font_sprites : List ℕ :=
  [0xF0, 0x90, 0x90, 0x90, 0xF0,
   0x20, 0x60, 0x20, 0x20, 0x70,
   0xF0, 0x10, 0xF0, 0x80, 0xF0,
   0xF0, 0x10, 0xF0, 0x10, 0xF0,
   0x90, 0x90, 0xF0, 0x10, 0x10,
   0xF0, 0x80, 0xF0, 0x10, 0xF0,
   0xF0, 0x80, 0xF0, 0x90, 0xF0,
   0xF0, 0x10, 0x20, 0x40, 0x40,
   0xF0, 0x90, 0xF0, 0x90, 0xF0,
   0xF0, 0x90, 0xF0, 0x10, 0xF0,
   0xF0, 0x90, 0xF0, 0x90, 0x90,
   0xE0, 0x90, 0xE0, 0x90, 0xE0,
   0xF0, 0x80, 0x80, 0x80, 0xF0,
   0xE0, 0x90, 0x90, 0x90, 0xE0,
   0xF0, 0x80, 0xF0, 0x80, 0xF0,
   0xF0, 0x80, 0xF0, 0x80, 0x80]

/-- Rust `Memory::new`: zeroed memory with the font table written at 0x0. -/
def memory_new : Mem :=
  (write_bytes (fun _ => 0) 0 font_sprites).getD (fun _ => 0)

/-! ## ProgramCounter (`src/program_counter.rs`)

`ptr` is a `u16`; the `+=` operations are modelled with an explicit
`% 2^16`. `set_to_address` asserts `address >= 0x200`; the failed assertion
panic is modelled as `none`. -/

/-- Rust `ProgramCounter::increment`: `ptr += 2`. -/
def pc_increment (pc : ℕ) : ℕ := (pc + 2) % 65536

/-- Rust `ProgramCounter::skip_instruction`: `ptr += 4`. -/
def pc_skip_instruction (pc : ℕ) : ℕ := (pc + 4) % 65536

/-- Rust `ProgramCounter::peek`: `ptr + 2`. -/
def pc_peek (pc : ℕ) : ℕ := (pc + 2) % 65536

/-- Rust `ProgramCounter::set_to_address`: asserts the target is at least the first
program address 0x200. -/
def pc_set_to_address (address : ℕ) : Option ℕ :=
  if 0x200 ≤ address then some address else none

/-! ## Cpu (`src/cpu.rs`) -/

/-- Rust `CARRY_REG_ADDRESS`: `VF`, the flag register. -/
def CARRY_REG_ADDRESS : ℕ := 0xF

/-- The `Registers` struct, the call stack and the memory of `Cpu`.
`v` is `general_registers` (u8 values at indices 0–15), `i` the index
register (u16), `sp` the optional stack pointer, `stack` the 16 u16 slots. -/
structure CpuState where
  v : ℕ → ℕ
  i : ℕ
  delay_timer : ℕ
  sound_timer : ℕ
  pc : ℕ
  sp : Option ℕ
  stack : ℕ → ℕ
  mem : Mem

/-- Rust `Cpu::new` (with `Memory::new`): zeroed registers, PC at 0x200, empty
stack. -/
def cpu_new : CpuState :=
  { v := fun _ => 0
    i := 0
    delay_timer := 0
    sound_timer := 0
    pc := 0x200
    sp := none
    stack := fun _ => 0
    mem := memory_new }

/-- Number of pending return addresses: the stack pointer indexes the topmost
occupied slot, `none` meaning empty. -/
def stack_depth (s : CpuState) : ℕ :=
  match s.sp with
  | none => 0
  | some p => p + 1

/-- Rust `Cpu::exec_call_subroutine` (2nnn): bump the stack pointer, store
`program_counter.peek()` in the new top slot (an index past the 16 slots
panics), then `set_to_address(nnn)` (asserts `nnn >= 0x200`). -/
def exec_call_subroutine (s : CpuState) (nnn : ℕ) : Option CpuState :=
  let new_sp : ℕ :=
    match s.sp with
    | none => 0
    | some p => p + 1
  if new_sp < 16 then
    match pc_set_to_address nnn with
    | none => none
    | some a =>
      some { s with
              sp := some new_sp
              stack := Function.update s.stack new_sp (pc_peek s.pc)
              pc := a }
  else none

/-- Rust `Cpu::exec_return_from_subroutine` (00EE): an empty stack panics
(`expect`); otherwise pop the top return address and jump to it
(`set_to_address` asserts it is at least 0x200). -/
def exec_return_from_subroutine (s : CpuState) : Option CpuState :=
  match s.sp with
  | none => none
  | some p =>
    if p < 16 then
      match pc_set_to_address (s.stack p) with
      | none => none
      | some a =>
        some { s with
                sp := if p = 0 then none else some (p - 1)
                pc := a }
    else none

/-- Rust `Cpu::exec_set_i_to_sprite_address` (Fx29): `(vx * 5) as u16`, where the
multiplication happens in `u8` and therefore wraps modulo 256. -/
def exec_set_i_to_sprite_address (s : CpuState) (x : ℕ) : CpuState :=
  { s with i := s.v x * 5 % 256, pc := pc_increment s.pc }

/-- Rust `Cpu::exec_or` (8xy1): `Vx |= Vy`, then the flag register is zeroed. -/
def exec_or (s : CpuState) (x y : ℕ) : CpuState :=
  let v1 := Function.update s.v x (s.v x ||| s.v y)
  { s with v := Function.update v1 CARRY_REG_ADDRESS 0, pc := pc_increment s.pc }

/-- Rust `Cpu::exec_and` (8xy2): `Vx &= Vy`, then the flag register is zeroed. -/
def exec_and (s : CpuState) (x y : ℕ) : CpuState :=
  let v1 := Function.update s.v x (s.v x &&& s.v y)
  { s with v := Function.update v1 CARRY_REG_ADDRESS 0, pc := pc_increment s.pc }

/-- Rust `Cpu::exec_xor` (8xy3): `Vx ^= Vy`, then the flag register is zeroed. -/
def exec_xor (s : CpuState) (x y : ℕ) : CpuState :=
  let v1 := Function.update s.v x (s.v x ^^^ s.v y)
  { s with v := Function.update v1 CARRY_REG_ADDRESS 0, pc := pc_increment s.pc }

/-- Rust `Cpu::exec_store_registers_in_memory` (Fx55): write `V0..=Vx` at `I`, then
`I += x + 1` (u16). -/
def exec_store_registers_in_memory (s : CpuState) (x : ℕ) : Option CpuState :=
  match write_bytes s.mem s.i ((List.range (x + 1)).map s.v) with
  | none => none
  | some m2 =>
    some { s with mem := m2, i := (s.i + x + 1) % 65536, pc := pc_increment s.pc }

/-- The `for (index, value) in read_data.iter().enumerate()` loop of
`Cpu::exec_load_registers_from_memory`: each iteration writes one register and
increments `I` (u16) once. -/
def load_regs_loop (v : ℕ → ℕ) (i : ℕ) (index : ℕ) : List ℕ → (ℕ → ℕ) × ℕ
  | [] => (v, i)
  | value :: rest =>
    load_regs_loop (Function.update v index value) ((i + 1) % 65536) (index + 1) rest

/-- Rust `Cpu::exec_load_registers_from_memory` (Fx65): read `1 + x` bytes at `I`
(out-of-bounds panics), copy them into `V0..=Vx`, incrementing `I` once per
register. -/
def exec_load_registers_from_memory (s : CpuState) (x : ℕ) : Option CpuState :=
  match read_bytes s.mem s.i (1 + x) with
  | none => none
  | some data =>
    let p := load_regs_loop s.v s.i 0 data
    some { s with v := p.1, i := p.2, pc := pc_increment s.pc }

/-- The call made to the `Audio` collaborator during a timer update:
`audio.play(sound_timer)` or `audio.stop()`. -/
inductive AudioSignal where
  | play (duration : ℕ)
  | stop
  deriving Repr, DecidableEq

/-- Rust `Cpu::progress_timer_registers`: each timer, when positive, is
`saturating_sub`-ed by `elapsed_frames as u8` (the cast truncates modulo 256);
`audio.play` is called with the pre-subtraction sound value exactly when the
sound timer is positive before the subtraction, else `audio.stop`. -/
def progress_timer_registers (delay sound frames : ℕ) : ℕ × ℕ × AudioSignal :=
  let delay2 := if 0 < delay then delay - frames % 256 else delay
  if 0 < sound then (delay2, sound - frames % 256, AudioSignal.play sound)
  else (delay2, sound, AudioSignal.stop)

/-- The timer-update step at the top of `Cpu::run_cycle`, as a function of the
whole milliseconds of wall time elapsed since the last update:
`elapsed_frames = elapsed.as_millis() / 60`, and `progress_timer_registers`
runs only when at least one frame elapsed (`none` = no audio call at all). -/
def run_cycle_timer_step (elapsed_millis delay sound : ℕ) :
    ℕ × ℕ × Option AudioSignal :=
  let elapsed_frames := elapsed_millis / 60
  if 1 ≤ elapsed_frames then
    let p := progress_timer_registers delay sound elapsed_frames
    (p.1, p.2.1, some p.2.2)
  else (delay, sound, none)

/-- The busy-poll `loop` of `Cpu::exec_wait_until_key_press` (Fx0A). The
keyboard adapter is modelled as a trace: `kb t` is the pressed-key set (as a
list) it reports at the `t`-th poll, `get_pressed_key` returning its first
element and `is_key_pressed_or_held` testing membership. Each iteration makes
exactly one poll. `fuel` bounds how many iterations are unfolded — the Rust
loop is unbounded, so the loop diverges exactly when the result is `none` for
every fuel. On exit it returns the register file (with `Vx` set to the
recorded key) and the poll index of the exit. -/
def wait_key_loop (kb : ℕ → List ℕ) (x : ℕ) (v : ℕ → ℕ)
    (key_pressed : Option ℕ) (t : ℕ) : ℕ → Option ((ℕ → ℕ) × ℕ)
  | 0 => none
  | fuel + 1 =>
    match key_pressed with
    | some key =>
      if (kb t).contains key then wait_key_loop kb x v (some key) (t + 1) fuel
      else some (v, t)
    | none =>
      match (kb t).head? with
      | some pressed_key =>
        wait_key_loop kb x (Function.update v x pressed_key) (some pressed_key) (t + 1) fuel
      | none => wait_key_loop kb x v none (t + 1) fuel

/-- Rust `Cpu::exec_wait_until_key_press` (Fx0A): run the busy-poll loop starting
with no recorded key; only when it exits is the program counter incremented. -/
def exec_wait_until_key_press (kb : ℕ → List ℕ) (s : CpuState) (x : ℕ)
    (fuel : ℕ) : Option CpuState :=
  match wait_key_loop kb x s.v none 0 fuel with
  | none => none
  | some p => some { s with v := p.1, pc := pc_increment s.pc }

/-- A keyboard trace on which key 5 is pressed and held forever. -/
def kb_held : ℕ → List ℕ := fun _ => [5]

/-- A keyboard trace on which key 5 is pressed at the first poll and released
afterwards. -/
def kb_once : ℕ → List ℕ := fun t => if t = 0 then [5] else []

end Chip8

namespace Chip8

/-- C4: for every 16-bit instruction word `w`, decoding is total (it is a plain
Lean function on all of `ℕ`, so in particular on all 65536 words, with no
failure mode) and the decoded fields satisfy the stated bit-level identities:
`nnn = w &&& 0x0FFF`, `kk = w &&& 0x00FF`, `x = (w >>> 8) &&& 0xF`,
`y = (w >>> 4) &&& 0xF`, and the fourth nibble `n = w &&& 0xF`. -/
theorem decode_fields (w : ℕ) (_hw : w < 65536) :
    (Instruction.decode w).nnn = w &&& 0x0FFF ∧
    (Instruction.decode w).kk = w &&& 0x00FF ∧
    (Instruction.decode w).x = (w >>> 8) &&& 0xF ∧
    (Instruction.decode w).y = (w >>> 4) &&& 0xF ∧
    (Instruction.decode w).fourth_nibble = w &&& 0xF := by
  have hnnn : ∀ s b : ℕ, b < 256 → (s <<< 8) ||| b = s * 256 + b := by
    intro s b hb
    have h := Nat.mul_add_lt_is_or (i := 8) (b := b) (by omega) s
    rw [Nat.shiftLeft_eq]
    norm_num at h ⊢
    rw [mul_comm s 256]
    exact h.symm
  have e1 : w &&& 0x0FFF = w % 4096 := by
    have h := Nat.and_pow_two_sub_one_eq_mod w 12
    norm_num at h
    exact h
  have e2 : w &&& 0x00FF = w % 256 := by
    have h := Nat.and_pow_two_sub_one_eq_mod w 8
    norm_num at h
    exact h
  have e3 : ∀ v : ℕ, v &&& 0xF = v % 16 := by
    intro v
    have h := Nat.and_pow_two_sub_one_eq_mod v 4
    norm_num at h
    exact h
  have s8 : w >>> 8 = w / 256 := by
    have h := Nat.shiftRight_eq_div_pow w 8
    norm_num at h
    exact h
  have s4 : w >>> 4 = w / 16 := by
    have h := Nat.shiftRight_eq_div_pow w 4
    norm_num at h
    exact h
  refine ⟨?_, ?_, ?_, ?_, ?_⟩
  · simp only [Instruction.decode, Instruction.new, Instruction.nnn, Instruction.second_nibble]
    rw [hnnn _ _ (by omega), e1]
    omega
  · simp only [Instruction.decode, Instruction.new, Instruction.kk]
    rw [e2]
    omega
  · simp only [Instruction.decode, Instruction.new, Instruction.x, Instruction.second_nibble]
    rw [s8, e3]
    omega
  · simp only [Instruction.decode, Instruction.new, Instruction.y, Instruction.third_nibble]
    rw [s4, e3]
    omega
  · simp only [Instruction.decode, Instruction.new, Instruction.fourth_nibble]
    rw [e3]
    omega

/-- Witness for C4 at the concrete word 0xD123. -/
theorem decode_fields_witness :
    (Instruction.decode 0xD123).nnn = 0xD123 &&& 0x0FFF ∧
    (Instruction.decode 0xD123).kk = 0xD123 &&& 0x00FF ∧
    (Instruction.decode 0xD123).x = (0xD123 >>> 8) &&& 0xF ∧
    (Instruction.decode 0xD123).y = (0xD123 >>> 4) &&& 0xF ∧
    (Instruction.decode 0xD123).fourth_nibble = 0xD123 &&& 0xF :=
  decode_fields 0xD123 (by decide)

/-- For booleans, `a ≠ c` forces a difference across any middle value. -/
theorem ne_trans_cases {α : Type} {a b c : α} (h : a ≠ c) : a ≠ b ∨ b ≠ c := by
  by_cases hab : a = b
  · right
    intro hbc
    exact h (hab.trans hbc)
  · left
    exact hab

/-- A single `draw_row` pass changes a pixel only at row `py`, inside the
screen, and only at a column addressed by one of the visited bit indices. -/
theorem draw_row_changes {bits : List ℕ} {d : Display} {er : Bool}
    {nx py byte y x : ℕ}
    (h : (draw_row d er nx py byte bits).1 y x ≠ d y x) :
    y = py ∧ y < 32 ∧ x < 64 ∧ ∃ bi ∈ bits, x = nx + 8 - 1 - bi := by
  induction bits generalizing d er with
  | nil => simp [draw_row] at h
  | cons b rest ih =>
    simp only [draw_row] at h
    split at h
    · obtain ⟨h1, h2, h3, bi, hbi, hx⟩ := ih h
      exact ⟨h1, h2, h3, bi, List.mem_cons_of_mem _ hbi, hx⟩
    · rename_i hob
      push_neg at hob
      rcases ne_trans_cases
          (b := (fun yy xx => if yy = py ∧ xx = nx + 8 - 1 - b
                  then decide (byte &&& 1 <<< b ≠ 0) else d yy xx) y x) h with h2 | h2
      · obtain ⟨h1, h3, h4, bi, hbi, hx⟩ := ih h2
        exact ⟨h1, h3, h4, bi, List.mem_cons_of_mem _ hbi, hx⟩
      · by_cases hyx : y = py ∧ x = nx + 8 - 1 - b
        · exact ⟨hyx.1, by omega, by omega, b, List.mem_cons_self _ _, hyx.2⟩
        · simp only [if_neg hyx] at h2
          exact absurd rfl h2

/-- A full `draw_rows` pass changes a pixel only inside the screen and inside
the 8-wide, `rows.length`-tall rectangle anchored at `(nx, ny + sy)`. -/
theorem draw_rows_changes {rows : List ℕ} {d : Display} {er : Bool}
    {nx ny sy y x : ℕ}
    (h : (draw_rows d er nx ny sy rows).1 y x ≠ d y x) :
    x < 64 ∧ y < 32 ∧ nx ≤ x ∧ x < nx + 8 ∧
      ny + sy ≤ y ∧ y < ny + sy + rows.length := by
  induction rows generalizing d er sy with
  | nil => simp [draw_rows] at h
  | cons byte rest ih =>
    simp only [draw_rows] at h
    rcases ne_trans_cases
        (b := (draw_row d er nx (ny + sy) byte (List.range 8).reverse).1 y x) h with h2 | h2
    · obtain ⟨a1, a2, a3, a4, a5, a6⟩ := ih h2
      refine ⟨a1, a2, a3, a4, by omega, ?_⟩
      simp only [List.length_cons]
      omega
    · obtain ⟨hy, h32, h64, bi, hbi, hx⟩ := draw_row_changes h2
      have hbi8 : bi < 8 := by simpa using hbi
      refine ⟨h64, h32, by omega, by omega, by omega, ?_⟩
      simp only [List.length_cons]
      omega

/-- C10: the sprite edge policy is clip, not per-pixel wrap: `draw_sprite`
reduces only the starting coordinates modulo (64, 32); any changed pixel lies
inside the screen and inside the 8 × `sprite.length` rectangle anchored at
`(target_x % 64, target_y % 32)` (so no pixel wraps around an edge), and no
draw ever writes a pixel outside the 64×32 framebuffer. -/
theorem draw_sprite_clip_policy (d : Display) (sprite : List ℕ) (tx ty y x : ℕ) :
    ((draw_sprite d sprite tx ty).1 y x ≠ d y x →
      x < 64 ∧ y < 32 ∧ tx % 64 ≤ x ∧ x < tx % 64 + 8 ∧
        ty % 32 ≤ y ∧ y < ty % 32 + sprite.length)
    ∧ (32 ≤ y ∨ 64 ≤ x → (draw_sprite d sprite tx ty).1 y x = d y x) := by
  constructor
  · intro h
    unfold draw_sprite at h
    obtain ⟨a1, a2, a3, a4, a5, a6⟩ := draw_rows_changes h
    exact ⟨a1, a2, a3, a4, by omega, by omega⟩
  · intro hout
    by_contra hne
    unfold draw_sprite at hne
    obtain ⟨a1, a2, -⟩ := draw_rows_changes hne
    omega

/-- Witness for C10: drawing one byte at (70, 40) changes pixel (8, 6), which
lies in the clip rectangle anchored at (70 % 64, 40 % 32) = (6, 8). -/
theorem draw_sprite_clip_policy_witness :
    6 < 64 ∧ 8 < 32 ∧ 70 % 64 ≤ 6 ∧ 6 < 70 % 64 + 8 ∧
      40 % 32 ≤ 8 ∧ 8 < 40 % 32 + [255].length :=
  (draw_sprite_clip_policy clear_display [255] 70 40 8 6).1 (by decide)

/-- C1 (evaluation at the failing input): `draw_sprite` overwrites pixels with
the sprite bit instead of XOR-ing. Drawing byte 0xFF at (0,0) on a cleared
screen sets row 0 columns 0–7 with no collision; drawing the identical sprite
again at the same place leaves those pixels set (instead of clearing them) and
still reports no collision (instead of reporting one). -/
theorem draw_sprite_not_xor :
    (draw_sprite clear_display [255] 0 0).2 = false
    ∧ (draw_sprite clear_display [255] 0 0).1 0 0 = true
    ∧ (draw_sprite clear_display [255] 0 0).1 0 1 = true
    ∧ (draw_sprite clear_display [255] 0 0).1 0 2 = true
    ∧ (draw_sprite clear_display [255] 0 0).1 0 3 = true
    ∧ (draw_sprite clear_display [255] 0 0).1 0 4 = true
    ∧ (draw_sprite clear_display [255] 0 0).1 0 5 = true
    ∧ (draw_sprite clear_display [255] 0 0).1 0 6 = true
    ∧ (draw_sprite clear_display [255] 0 0).1 0 7 = true
    ∧ (draw_sprite clear_display [255] 0 0).1 0 8 = false
    ∧ (draw_sprite (draw_sprite clear_display [255] 0 0).1 [255] 0 0).2 = false
    ∧ (draw_sprite (draw_sprite clear_display [255] 0 0).1 [255] 0 0).1 0 0 = true
    ∧ (draw_sprite (draw_sprite clear_display [255] 0 0).1 [255] 0 0).1 0 7 = true := by
  decide

/-- Unfolding of a successful `write_bytes`. -/
theorem write_bytes_some {m : Mem} {start : ℕ} {repl : List ℕ}
    (h : start + repl.length ≤ MEMORY_SIZE) :
    write_bytes m start repl = some (fun a =>
      if start ≤ a ∧ a < start + repl.length then repl.getD (a - start) 0 else m a) := by
  unfold write_bytes
  rw [if_pos h]

/-- Unfolding of a successful `read_bytes`. -/
theorem read_bytes_some {m : Mem} {start count : ℕ}
    (h : start + count ≤ MEMORY_SIZE) :
    read_bytes m start count = some ((List.range count).map (fun j => m (start + j))) := by
  unfold read_bytes
  rw [if_pos h]

/-- Reading `getD` on a mapped range reads off the function value. -/
theorem getD_map_range (f : ℕ → ℕ) {n j : ℕ} (h : j < n) :
    ((List.range n).map f).getD j 0 = f j := by
  simp [List.getD_eq_getElem?_getD, List.getElem?_map, List.getElem?_range h]

/-- C7 counterexample: at `Vx = 52` the `u8` multiplication `vx * 5` wraps, so
`I` becomes 4, not 52 × 5 = 260 as the claim requires. -/
theorem set_i_to_sprite_address_overflow :
    (exec_set_i_to_sprite_address
        { cpu_new with v := Function.update cpu_new.v 0 52 } 0).i = 4
    ∧ ({ cpu_new with v := Function.update cpu_new.v 0 52 } : CpuState).v 0 * 5 = 260
    ∧ (4 : ℕ) ≠ 260 := by
  refine ⟨?_, ?_, by decide⟩
  · simp [exec_set_i_to_sprite_address, Function.update_same]
  · simp [Function.update_same]

/-- C7 (amended): Fx29 sets `I` to `(Vx * 5) mod 256` — the multiplication is
performed in `u8` — which equals `Vx * 5` whenever `Vx ≤ 51`, in particular
for every digit value 0–15; the general registers are left unchanged. -/
theorem exec_set_i_to_sprite_address_spec (s : CpuState) (x : ℕ) :
    (exec_set_i_to_sprite_address s x).i = s.v x * 5 % 256
    ∧ (exec_set_i_to_sprite_address s x).v = s.v
    ∧ (s.v x ≤ 51 → (exec_set_i_to_sprite_address s x).i = s.v x * 5) := by
  refine ⟨rfl, rfl, fun h => ?_⟩
  simp only [exec_set_i_to_sprite_address]
  omega

/-- Witness for C7 (amended) at the initial state, `x = 3`, `V3 = 0`. -/
theorem exec_set_i_to_sprite_address_spec_witness :
    (exec_set_i_to_sprite_address cpu_new 3).i = cpu_new.v 3 * 5 :=
  (exec_set_i_to_sprite_address_spec cpu_new 3).2.2 (by decide)

/-- C9: every execution of OR (8xy1), AND (8xy2) and XOR (8xy3) explicitly
zeroes the flag register afterwards, regardless of the operands; for
`x ≠ 0xF` the destination register holds the bitwise result, while for
`x = 0xF` the result itself is overwritten by the zeroed flag. -/
theorem logical_ops_zero_flag (s : CpuState) (x y : ℕ) :
    (exec_or s x y).v CARRY_REG_ADDRESS = 0
    ∧ (exec_and s x y).v CARRY_REG_ADDRESS = 0
    ∧ (exec_xor s x y).v CARRY_REG_ADDRESS = 0
    ∧ (x ≠ CARRY_REG_ADDRESS →
        (exec_or s x y).v x = s.v x ||| s.v y
        ∧ (exec_and s x y).v x = s.v x &&& s.v y
        ∧ (exec_xor s x y).v x = s.v x ^^^ s.v y) := by
  refine ⟨?_, ?_, ?_, fun hx => ?_⟩
  · simp [exec_or, Function.update_same]
  · simp [exec_and, Function.update_same]
  · simp [exec_xor, Function.update_same]
  · refine ⟨?_, ?_, ?_⟩ <;>
      simp [exec_or, exec_and, exec_xor, Function.update_same, Function.update_apply, hx]

/-- Witness for C9 at the initial state with `x = 0`, `y = 1`. -/
theorem logical_ops_zero_flag_witness :
    (exec_or cpu_new 0 1).v 0 = cpu_new.v 0 ||| cpu_new.v 1
    ∧ (exec_and cpu_new 0 1).v 0 = cpu_new.v 0 &&& cpu_new.v 1
    ∧ (exec_xor cpu_new 0 1).v 0 = cpu_new.v 0 ^^^ cpu_new.v 1 :=
  (logical_ops_zero_flag cpu_new 0 1).2.2.2 (by decide)

/-- C3 counterexample, three independent discrepancies: (a) 20 ms is more
than 1/60 s, yet no timer update happens (a "frame" is 60 ms of wall time,
`as_millis() / 60`); (b) with `sound_timer = 1` and one elapsed frame, tone-on
is signalled although the timer is 0 after the subtraction; (c) with 256
elapsed frames, the `as u8` cast truncates the subtrahend to 0 and the timers
do not decrease at all. -/
theorem run_cycle_timer_step_counterexample :
    run_cycle_timer_step 20 5 5 = (5, 5, none)
    ∧ run_cycle_timer_step 60 0 1 = (0, 0, some (AudioSignal.play 1))
    ∧ run_cycle_timer_step 15360 10 10 = (10, 10, some (AudioSignal.play 10)) := by
  decide

/-- C3 (amended): with `m` whole milliseconds of wall time elapsed, the frame
count is `m / 60` (one frame per 60 ms); when no frame has elapsed nothing
changes and no audio call is made; otherwise both timers are
saturating-subtracted by `(m / 60) mod 256` (the `u8` cast of the frame
count), and tone-on — parameterized by the pre-subtraction sound value — is
signalled exactly when the sound timer was positive before the subtraction,
else tone-off. -/
theorem run_cycle_timer_step_spec (m delay sound : ℕ) :
    (m < 60 → run_cycle_timer_step m delay sound = (delay, sound, none))
    ∧ (60 ≤ m →
        run_cycle_timer_step m delay sound =
          (delay - m / 60 % 256, sound - m / 60 % 256,
            some (if 0 < sound then AudioSignal.play sound else AudioSignal.stop))) := by
  constructor
  · intro h
    have h0 : m / 60 = 0 := Nat.div_eq_of_lt h
    simp [run_cycle_timer_step, h0]
  · intro h
    have h1 : 1 ≤ m / 60 := by omega
    have hd : (if 0 < delay then delay - m / 60 % 256 else delay) = delay - m / 60 % 256 := by
      split
      · rfl
      · omega
    rcases Nat.eq_zero_or_pos sound with hs | hs
    · subst hs
      simp [run_cycle_timer_step, progress_timer_registers, h1, hd]
    · simp [run_cycle_timer_step, progress_timer_registers, h1, hd, hs, Nat.pos_iff_ne_zero.mp hs]

/-- Witness for C3 (amended) at 120 ms elapsed, `delay = 3`, `sound = 2`. -/
theorem run_cycle_timer_step_spec_witness :
    run_cycle_timer_step 120 3 2 =
      (3 - 120 / 60 % 256, 2 - 120 / 60 % 256,
        some (if 0 < 2 then AudioSignal.play 2 else AudioSignal.stop)) :=
  (run_cycle_timer_step_spec 120 3 2).2 (by decide)

/-- Unfolding of a successful CALL: the pushed slot is the next free one and
holds `peek() = PC + 2 (mod 2^16)`. -/
theorem exec_call_eq (s : CpuState) (nnn : ℕ) (hn : 0x200 ≤ nnn)
    (hcap : stack_depth s < 16) :
    exec_call_subroutine s nnn = some
      { s with
          sp := some (stack_depth s)
          stack := Function.update s.stack (stack_depth s) (pc_peek s.pc)
          pc := nnn } := by
  cases hsp : s.sp with
  | none =>
    have hd : stack_depth s = 0 := by simp [stack_depth, hsp]
    simp [exec_call_subroutine, hsp, pc_set_to_address, hn, hd]
  | some p =>
    have hd : stack_depth s = p + 1 := by simp [stack_depth, hsp]
    have hp : p + 1 < 16 := by omega
    simp [exec_call_subroutine, hsp, pc_set_to_address, hn, hd, hp]

/-- Unfolding of a successful RETURN: pop the top slot and jump to it. -/
theorem exec_return_eq (s : CpuState) (p : ℕ) (hsp : s.sp = some p)
    (hp : p < 16) (hra : 0x200 ≤ s.stack p) :
    exec_return_from_subroutine s = some
      { s with
          sp := if p = 0 then none else some (p - 1)
          pc := s.stack p } := by
  simp [exec_return_from_subroutine, hsp, hp, pc_set_to_address, hra]

/-- C5: from any state whose program counter respects the machine invariants
(`PC ≥ 0x200`, no u16 overflow on `PC + 2`), a CALL to `nnn ≥ 0x200` with
stack capacity available pushes the return address `PC + 2`, and the matching
RETURN leaves the program counter equal to the pre-CALL program counter
plus 2. -/
theorem call_then_return_pc (s : CpuState) (nnn : ℕ)
    (hn : 0x200 ≤ nnn) (hpc : 0x200 ≤ s.pc) (hpc2 : s.pc + 2 < 65536)
    (hcap : stack_depth s < 16) :
    ∃ s1 s2, exec_call_subroutine s nnn = some s1
      ∧ exec_return_from_subroutine s1 = some s2
      ∧ s2.pc = s.pc + 2
      ∧ s1.stack (stack_depth s) = s.pc + 2 := by
  have hmod : (s.pc + 2) % 65536 = s.pc + 2 := Nat.mod_eq_of_lt hpc2
  have hpush : Function.update s.stack (stack_depth s) (pc_peek s.pc) (stack_depth s)
      = s.pc + 2 := by
    rw [Function.update_same, pc_peek, hmod]
  refine ⟨_, _, exec_call_eq s nnn hn hcap,
    exec_return_eq _ (stack_depth s) rfl hcap
      (by
        show 0x200 ≤ Function.update s.stack (stack_depth s) (pc_peek s.pc) (stack_depth s)
        rw [hpush]
        omega),
    ?_, ?_⟩
  · show Function.update s.stack (stack_depth s) (pc_peek s.pc) (stack_depth s) = s.pc + 2
    exact hpush
  · exact hpush

/-- Witness for C5: CALL 0x300 from the initial state, then RETURN. -/
theorem call_then_return_pc_witness :
    ∃ s1 s2, exec_call_subroutine cpu_new 0x300 = some s1
      ∧ exec_return_from_subroutine s1 = some s2
      ∧ s2.pc = cpu_new.pc + 2
      ∧ s1.stack (stack_depth cpu_new) = cpu_new.pc + 2 :=
  call_then_return_pc cpu_new 0x300 (by decide) (by decide) (by decide) (by decide)

/-- C6 counterexample: from the initial state — zero pending return
addresses, so strictly fewer than 16 — executing CALL with target
`nnn = 0x100` aborts (the `set_to_address` assertion `address >= 0x200`
fails), although the claim states that CALL never aborts in any state with
fewer than 16 pending return addresses. -/
theorem call_abort_despite_capacity :
    stack_depth cpu_new = 0 ∧ exec_call_subroutine cpu_new 0x100 = none := by
  exact ⟨rfl, rfl⟩

/-- C6 (amended): CALL on a full stack aborts and RETURN on an empty stack
aborts, with no recovery; CALL never aborts in a state with fewer than 16
pending return addresses provided its target satisfies `nnn ≥ 0x200`; RETURN
never aborts in a state with at least one pending return address provided the
topmost stored address is `≥ 0x200` (as is every address pushed by CALL). -/
theorem call_return_abort_conditions (s : CpuState) (nnn p : ℕ) :
    (s.sp = some 15 → exec_call_subroutine s nnn = none)
    ∧ (s.sp = none → exec_return_from_subroutine s = none)
    ∧ (stack_depth s < 16 → 0x200 ≤ nnn → (exec_call_subroutine s nnn).isSome)
    ∧ (s.sp = some p → p < 16 → 0x200 ≤ s.stack p →
        (exec_return_from_subroutine s).isSome) := by
  refine ⟨?_, ?_, ?_, ?_⟩
  · intro h
    simp [exec_call_subroutine, h]
  · intro h
    simp [exec_return_from_subroutine, h]
  · intro h1 h2
    rw [exec_call_eq s nnn h2 h1]
    rfl
  · intro h1 h2 h3
    rw [exec_return_eq s p h1 h2 h3]
    rfl

/-- Witness for C6 (amended): CALL 0x300 from the initial state does not
abort. -/
theorem call_return_abort_conditions_witness :
    (exec_call_subroutine cpu_new 0x300).isSome :=
  (call_return_abort_conditions cpu_new 0x300 0).2.2.1 (by decide) (by decide)

/-- The register file produced by the Fx65 copy loop: positions
`index ≤ n < index + data.length` hold the corresponding data byte, the rest
keep their old value. -/
theorem load_regs_loop_fst (l : List ℕ) : ∀ (v : ℕ → ℕ) (i index n : ℕ),
    (load_regs_loop v i index l).1 n =
      if index ≤ n ∧ n < index + l.length then l.getD (n - index) 0 else v n := by
  induction l with
  | nil =>
    intro v i index n
    rw [load_regs_loop, if_neg (by simp only [List.length_nil]; omega)]
  | cons a rest ih =>
    intro v i index n
    rw [load_regs_loop, ih]
    by_cases h1 : index + 1 ≤ n ∧ n < index + 1 + rest.length
    · rw [if_pos h1, if_pos (by simp only [List.length_cons]; omega)]
      have hn : n - index = (n - (index + 1)) + 1 := by omega
      rw [hn, List.getD_cons_succ]
    · rw [if_neg h1]
      by_cases hn : n = index
      · subst hn
        rw [if_pos (by simp only [List.length_cons]; omega)]
        simp [Function.update_same]
      · rw [Function.update_noteq hn,
          if_neg (by simp only [List.length_cons]; omega)]

/-- The index register produced by the Fx65 copy loop: incremented once per
byte, each increment reduced modulo 2^16. -/
theorem load_regs_loop_snd (l : List ℕ) : ∀ (v : ℕ → ℕ) (i index : ℕ),
    i < 65536 → (load_regs_loop v i index l).2 = (i + l.length) % 65536 := by
  induction l with
  | nil =>
    intro v i index hi
    simp [load_regs_loop, Nat.mod_eq_of_lt hi]
  | cons a rest ih =>
    intro v i index hi
    rw [load_regs_loop, ih _ _ _ (Nat.mod_lt _ (by omega))]
    simp only [List.length_cons, Nat.mod_add_mod]
    omega

/-- C8: both block register operations auto-increment the index register.
With the whole range in bounds, Fx55 stores `V0..Vx` at `old I .. old I + x`
and leaves `I = old I + x + 1`; Fx65 loads `V0..Vx` from
`old I .. old I + x` and leaves `I = old I + x + 1`. -/
theorem store_load_registers_autoincrement (s : CpuState) (x : ℕ)
    (hb : s.i + x + 1 ≤ 4096) :
    (∃ s', exec_store_registers_in_memory s x = some s'
      ∧ (∀ j ≤ x, s'.mem (s.i + j) = s.v j) ∧ s'.i = s.i + x + 1)
    ∧ (∃ s', exec_load_registers_from_memory s x = some s'
      ∧ (∀ j ≤ x, s'.v j = s.mem (s.i + j)) ∧ s'.i = s.i + x + 1) := by
  constructor
  · have hlen : s.i + ((List.range (x + 1)).map s.v).length ≤ MEMORY_SIZE := by
      simp only [List.length_map, List.length_range, MEMORY_SIZE]
      omega
    refine ⟨{ s with
        mem := fun a =>
          if s.i ≤ a ∧ a < s.i + ((List.range (x + 1)).map s.v).length
          then ((List.range (x + 1)).map s.v).getD (a - s.i) 0 else s.mem a
        i := (s.i + x + 1) % 65536
        pc := pc_increment s.pc }, ?_, ?_, ?_⟩
    · rw [exec_store_registers_in_memory, write_bytes_some hlen]
    · intro j hj
      show (if s.i ≤ s.i + j ∧ s.i + j < s.i + ((List.range (x + 1)).map s.v).length
            then ((List.range (x + 1)).map s.v).getD (s.i + j - s.i) 0
            else s.mem (s.i + j)) = s.v j
      rw [if_pos (by simp only [List.length_map, List.length_range]; omega)]
      have hj' : s.i + j - s.i = j := by omega
      rw [hj', getD_map_range s.v (by omega)]
    · show (s.i + x + 1) % 65536 = s.i + x + 1
      exact Nat.mod_eq_of_lt (by omega)
  · have hcnt : s.i + (1 + x) ≤ MEMORY_SIZE := by
      simp only [MEMORY_SIZE]
      omega
    refine ⟨{ s with
        v := (load_regs_loop s.v s.i 0 ((List.range (1 + x)).map (fun j => s.mem (s.i + j)))).1
        i := (load_regs_loop s.v s.i 0 ((List.range (1 + x)).map (fun j => s.mem (s.i + j)))).2
        pc := pc_increment s.pc }, ?_, ?_, ?_⟩
    · rw [exec_load_registers_from_memory, read_bytes_some hcnt]
    · intro j hj
      show (load_regs_loop s.v s.i 0 ((List.range (1 + x)).map (fun j => s.mem (s.i + j)))).1 j
        = s.mem (s.i + j)
      rw [load_regs_loop_fst]
      rw [if_pos (by simp only [List.length_map, List.length_range]; omega)]
      simpa using getD_map_range (fun j => s.mem (s.i + j)) (n := 1 + x) (j := j) (by omega)
    · show (load_regs_loop s.v s.i 0 ((List.range (1 + x)).map (fun j => s.mem (s.i + j)))).2
        = s.i + x + 1
      rw [load_regs_loop_snd _ _ _ _ (by omega)]
      simp only [List.length_map, List.length_range]
      exact (by omega : (s.i + (1 + x)) % 65536 = s.i + x + 1)

/-- Witness for C8 at the initial state with `x = 1`. -/
theorem store_load_registers_autoincrement_witness :
    (∃ s', exec_store_registers_in_memory cpu_new 1 = some s'
      ∧ (∀ j ≤ 1, s'.mem (cpu_new.i + j) = cpu_new.v j) ∧ s'.i = cpu_new.i + 1 + 1)
    ∧ (∃ s', exec_load_registers_from_memory cpu_new 1 = some s'
      ∧ (∀ j ≤ 1, s'.v j = cpu_new.mem (cpu_new.i + j)) ∧ s'.i = cpu_new.i + 1 + 1) :=
  store_load_registers_autoincrement cpu_new 1 (by decide)

/-- Once a key is recorded, the Fx0A loop keeps the register file unchanged
and exits only at a poll where that key is no longer reported pressed. -/
theorem wait_key_loop_some_exit {kb : ℕ → List ℕ} {x : ℕ} {key : ℕ} :
    ∀ {fuel t : ℕ} {v v' : ℕ → ℕ} {te : ℕ},
      wait_key_loop kb x v (some key) t fuel = some (v', te) →
      v' = v ∧ t ≤ te ∧ (kb te).contains key = false := by
  intro fuel
  induction fuel with
  | zero =>
    intro t v v' te h
    simp [wait_key_loop] at h
  | succ n ih =>
    intro t v v' te h
    simp only [wait_key_loop] at h
    split at h
    · obtain ⟨h1, h2, h3⟩ := ih h
      exact ⟨h1, by omega, h3⟩
    · rename_i hc
      obtain ⟨hv, ht⟩ := Prod.mk.injEq .. ▸ Option.some.injEq .. ▸ h
      subst hv
      subst ht
      exact ⟨rfl, le_refl _, Bool.not_eq_true _ ▸ hc⟩

/-- Starting with no recorded key, a terminating Fx0A loop records the first
key the adapter reports pressed at some poll `t0`, and exits at a later poll
`te` where that key is reported released; `Vx` holds the key. -/
theorem wait_key_loop_none_exit {kb : ℕ → List ℕ} {x : ℕ} :
    ∀ {fuel t : ℕ} {v v' : ℕ → ℕ} {te : ℕ},
      wait_key_loop kb x v none t fuel = some (v', te) →
      ∃ k t0, t ≤ t0 ∧ t0 < te ∧ (kb t0).head? = some k
        ∧ (kb te).contains k = false ∧ v' = Function.update v x k := by
  intro fuel
  induction fuel with
  | zero =>
    intro t v v' te h
    simp [wait_key_loop] at h
  | succ n ih =>
    intro t v v' te h
    simp only [wait_key_loop] at h
    cases hh : (kb t).head? with
    | some k =>
      rw [hh] at h
      obtain ⟨hv, hle, hcon⟩ := wait_key_loop_some_exit h
      exact ⟨k, t, le_refl _, by omega, hh, hcon, hv⟩
    | none =>
      rw [hh] at h
      obtain ⟨k, t0, h1, h2, h3, h4, h5⟩ := ih h
      exact ⟨k, t0, by omega, h2, h3, h4, h5⟩

/-- C2 (amended): Fx0A busy-polls the keyboard inside a single instruction
execution (a single `run_cycle`): if the internal loop ever exits, the final
state records in `Vx` a key that was reported pressed at some poll and later
reported released, the program counter advances by exactly 2, and nothing
else changes; if the adapter never reports a pressed key, the loop never
exits no matter how many polls are made, and the program counter never
advances. -/
theorem wait_until_key_press_spec (kb : ℕ → List ℕ) (s : CpuState) (x : ℕ) :
    (∀ fuel s', exec_wait_until_key_press kb s x fuel = some s' →
      ∃ k t0 t1, t0 < t1 ∧ (kb t0).head? = some k ∧ (kb t1).contains k = false
        ∧ s' = { s with v := Function.update s.v x k, pc := pc_increment s.pc })
    ∧ ((∀ t, kb t = []) → ∀ fuel, exec_wait_until_key_press kb s x fuel = none) := by
  constructor
  · intro fuel s' h
    unfold exec_wait_until_key_press at h
    cases hw : wait_key_loop kb x s.v none 0 fuel with
    | none =>
      rw [hw] at h
      cases h
    | some p =>
      rw [hw] at h
      obtain ⟨pv, pt⟩ := p
      obtain ⟨k, t0, -, h2, h3, h4, h5⟩ := wait_key_loop_none_exit hw
      refine ⟨k, t0, pt, h2, h3, h4, ?_⟩
      injection h with h'
      rw [← h']
      exact congrArg (fun w => { s with v := w, pc := pc_increment s.pc }) h5
  · intro hkb fuel
    have hloop : ∀ fuel t (v : ℕ → ℕ), wait_key_loop kb x v none t fuel = none := by
      intro f
      induction f with
      | zero =>
        intro t v
        rfl
      | succ n ih =>
        intro t v
        simp only [wait_key_loop, hkb t, List.head?_nil]
        exact ih (t + 1) v
    unfold exec_wait_until_key_press
    rw [hloop fuel 0 s.v]

/-- Witness for C2 (amended): on the trace where key 5 is pressed at the
first poll and released afterwards, two loop iterations suffice. -/
theorem wait_until_key_press_spec_witness :
    ∃ k t0 t1, t0 < t1 ∧ (kb_once t0).head? = some k
      ∧ (kb_once t1).contains k = false
      ∧ ({ cpu_new with v := Function.update cpu_new.v 0 5, pc := pc_increment cpu_new.pc } : CpuState)
        = { cpu_new with v := Function.update cpu_new.v 0 k, pc := pc_increment cpu_new.pc } :=
  (wait_until_key_press_spec kb_once cpu_new 0).1 2
    { cpu_new with v := Function.update cpu_new.v 0 5, pc := pc_increment cpu_new.pc }
    rfl

/-- C2 counterexample: with key 5 pressed and held forever, the very first
poll observes the pressed key, yet the instruction never completes — for
every bound on the number of polls the loop is still running (the code waits
for the observed key to be released) — so the program counter never advances
by 2, contrary to the claim that once a key is observed `Vx` holds it and PC
advances by 2 (with one instruction evaluated per cycle). -/
theorem wait_until_key_press_never_returns :
    (kb_held 0).head? = some 5
    ∧ ¬ ∃ fuel s', exec_wait_until_key_press kb_held cpu_new 0 fuel = some s' := by
  refine ⟨rfl, ?_⟩
  rintro ⟨fuel, s', h⟩
  have hloop : ∀ f t (v : ℕ → ℕ) kp, kp = none ∨ kp = some 5 →
      wait_key_loop kb_held 0 v kp t f = none := by
    intro f
    induction f with
    | zero =>
      intro t v kp _
      rfl
    | succ n ih =>
      intro t v kp hkp
      rcases hkp with rfl | rfl
      · simp only [wait_key_loop, kb_held, List.head?_cons]
        exact ih (t + 1) _ _ (Or.inr rfl)
      · simp only [wait_key_loop, kb_held]
        rw [if_pos (by decide)]
        exact ih (t + 1) _ _ (Or.inr rfl)
  unfold exec_wait_until_key_press at h
  rw [hloop fuel 0 cpu_new.v none (Or.inl rfl)] at h
  cases h

end Chip8
